import Mathlib

/-!
# Verification of the stream-to-timeline reconciliation engine

Shallow embedding of `src/azureaiagents/conversation_handler.py`: the
`ConversationHandler` class, its helper functions (`extract_bing_query`,
`convert_dict_to_mychatmessage`, `accumulate_args`, `finalize_tool_call`,
`upsert_tool_call`) and the `stream_user_message` driver loop.

Modelling conventions:
* Python dicts used as insertion-ordered maps become association lists
  (`List (κ × α)`) manipulated only through `alGet` / `alSet` / `alRemove`,
  which mirror `d.get`, `d[k] = v` (in-place update of an existing key,
  append of a new one) and `d.pop`.
* Python object references: `in_progress_tools` maps a call id to the
  *position* of its message inside `conversation`; the Python code mutates
  the referenced `MyChatMessage` object, the model updates the list at that
  position.  Within one turn the conversation list only appends and updates
  in place, so positions coincide with references.
* Python truthiness of an optional string (`if c_id:`) is `idTruthy`.
* `str.strip()` is `pyStrip` (ASCII whitespace set of CPython).
* The two dict fields named `partial_calls_by_index` / `partial_calls_by_id`
  in the source are rendered `pcalls_by_index` / `pcalls_by_id` here.
* Fallible external collaborators (`create_message`, `create_stream`) are
  parameters of the driver: a success flag for the post and an `Except` for
  the opened stream; the generator's yields are collected into a list.
-/

/-- CPython ASCII whitespace (the characters removed by `str.strip()`). -/
def isPyWs (c : Char) : Bool :=
  c = ' ' || c = '\t' || c = '\n' || c = '\r' || c = Char.ofNat 11 || c = Char.ofNat 12

/-- `str.strip()` on a character list: drop whitespace from both ends. -/
def pyStripL (l : List Char) : List Char :=
  ((l.dropWhile isPyWs).reverse.dropWhile isPyWs).reverse

/-- `str.strip()`. -/
def pyStrip (s : String) : String :=
  String.mk (pyStripL s.data)

/-- `d.get(k)` on an insertion-ordered dict rendered as an association list. -/
def alGet {κ α : Type} [DecidableEq κ] : List (κ × α) → κ → Option α
  | [], _ => none
  | (k', v) :: rest, k => if k' = k then some v else alGet rest k

/-- `d[k] = v`: update an existing key in place, else append. -/
def alSet {κ α : Type} [DecidableEq κ] : List (κ × α) → κ → α → List (κ × α)
  | [], k, v => [(k, v)]
  | (k', v') :: rest, k, v => if k' = k then (k, v) :: rest else (k', v') :: alSet rest k v

/-- `d.pop(k)`: remove the entry for `k` (association lists built through
`alSet` have at most one entry per key). -/
def alRemove {κ α : Type} [DecidableEq κ] : List (κ × α) → κ → List (κ × α)
  | [], _ => []
  | (k', v') :: rest, k => if k' = k then rest else (k', v') :: alRemove rest k

/-- Apply `f` to the element at position `i`, out-of-range is a no-op. -/
def updateAt {α : Type} : List α → Nat → (α → α) → List α
  | [], _, _ => []
  | x :: xs, 0, f => f x :: xs
  | x :: xs, n + 1, f => x :: updateAt xs n f

/-- Index (from the front) of the *last* element satisfying `p`; models the
`for msg in reversed(self.conversation)` scan. -/
def findLastIdx {α : Type} (p : α → Bool) : List α → Option Nat
  | [] => none
  | x :: xs =>
    match findLastIdx p xs with
    | some i => some (i + 1)
    | none => if p x then some 0 else none

/-- Whether `pre` is an initial segment of `l` (models `str.startswith`). -/
def listPre : List Char → List Char → Bool
  | [], _ => true
  | _, [] => false
  | a :: as, b :: bs => a = b && listPre as bs

/-- `s.startswith(p)`. -/
def strStarts (s p : String) : Bool := listPre p.data s.data

/-- Split a character list at its first `'"'`: returns the (quote-free) run
before it and the remainder after it. -/
def splitAtQuote : List Char → Option (List Char × List Char)
  | [] => none
  | c :: rest =>
    if c = '"' then some ([], rest)
    else
      match splitAtQuote rest with
      | some (run, after) => some (c :: run, after)
      | none => none

/-- Attempt of the regex `q="([^"]+)"` anchored at the head of the list:
requires the literal `q="`, then a non-empty quote-free run, then `"`. -/
def headMatch : List Char → Option (List Char)
  | a :: b :: c :: rest =>
    if a = 'q' ∧ b = '=' ∧ c = '"' then
      match splitAtQuote rest with
      | some (run, _) => if run = [] then none else some run
      | none => none
    else none
  | _ => none

/-- Leftmost search for `q="([^"]+)"` (models `re.search`): try the pattern
at each successive start position. -/
def searchQ : List Char → Option (List Char)
  | [] => none
  | c :: cs =>
    match headMatch (c :: cs) with
    | some run => some run
    | none => searchQ cs

/-- `extract_bing_query` from the source: return the capture of
`q="([^"]+)"` if the pattern occurs, else the whole URL. -/
def extract_bing_query (request_url : String) : String :=
  match searchQ request_url.data with
  | some run => String.mk run
  | none => request_url

/-- `MyChatMessage`: role, mutable text content, metadata dict
(string-valued in every use in this program). -/
structure MyChatMessage where
  role : String
  content : String
  metadata : List (String × String)
deriving DecidableEq, Repr

/-- One `{"name": ..., "args": ...}` accumulation dict. -/
structure PartialCall where
  name : String
  args : String
deriving DecidableEq, Repr

/-- A history entry in plain record form (`role`, `content`, optional
`metadata`), the input shape of `convert_dict_to_mychatmessage`. -/
structure MsgRecord where
  role : String
  content : String
  metadata : Option (List (String × String))
deriving DecidableEq, Repr

/-- `convert_dict_to_mychatmessage`: missing metadata becomes `{}`. -/
def convert_dict_to_mychatmessage (msg : MsgRecord) : MyChatMessage :=
  { role := msg.role, content := msg.content, metadata := msg.metadata.getD [] }

/-- The record form of a message (the snapshot shape a caller feeds back in
as `history`, per the external interface: role, content, metadata). -/
def toRecord (m : MyChatMessage) : MsgRecord :=
  { role := m.role, content := m.content, metadata := some m.metadata }

/-- The mutable per-turn state of a `ConversationHandler` instance:
`conversation`, `call_id_for_index`, `partial_calls_by_index`
(= `pcalls_by_index`), `partial_calls_by_id` (= `pcalls_by_id`) and
`in_progress_tools` (call id mapped to the position of its message in
`conversation`). -/
structure HandlerState where
  conversation : List MyChatMessage
  call_id_for_index : List (Option Nat × String)
  pcalls_by_index : List (Option Nat × PartialCall)
  pcalls_by_id : List (String × PartialCall)
  in_progress_tools : List (String × Nat)
deriving DecidableEq, Repr

/-- A fresh handler (the four accumulators and the timeline all empty). -/
def emptyHandlerState : HandlerState :=
  { conversation := [], call_id_for_index := [], pcalls_by_index := [],
    pcalls_by_id := [], in_progress_tools := [] }

/-- The fields of a raw `tcall` dict that `upsert_tool_call` reads:
`type` (default `""`), `id`, `bing_grounding.requesturl` (default `""`),
`index`, `function.name` and `function.arguments` (defaults `""`). -/
structure ToolCallDelta where
  ttype : String
  id : Option String
  bingRequestUrl : String
  index : Option Nat
  fname : String
  fargs : String
deriving DecidableEq, Repr

/-- Python truthiness of an optional string: `None` and `""` are falsy. -/
def idTruthy : Option String → Bool
  | none => false
  | some s => s ≠ ""

/-- `f"tool-{c_id}" if c_id else "tool-noid"`. -/
def toolTag (c_id : Option String) : String :=
  if idTruthy c_id then "tool-" ++ c_id.getD "" else "tool-noid"

/-- The default `function_titles` dict from the constructor. -/
def function_titles : List (String × String) :=
  [("fetch_weather", "☁️ fetching weather"),
   ("fetch_datetime", "🕒 fetching datetime"),
   ("fetch_stock_price", "📈 fetching financial info"),
   ("send_email", "✉️ sending mail"),
   ("file_search", "📄 searching docs"),
   ("bing_grounding", "🔍 searching bing")]

/-- `get_function_title`: registered title or the generic fallback. -/
def get_function_title (fn_name : String) : String :=
  (alGet function_titles fn_name).getD ("🛠 calling " ++ fn_name)

/-- The `{"name": "", "args": ""}` initial buffer value. -/
def emptyPC : PartialCall := { name := "", args := "" }

/-- `accumulate_args`: append the chunks to the buffer.  (The Python guards
`if name_chunk:` / `if arg_chunk:` only skip appending an empty string,
which is the identity, so they are dropped.) -/
def accumulate_args (storage : PartialCall) (name_chunk arg_chunk : String) : PartialCall :=
  { name := storage.name ++ name_chunk, args := storage.args ++ arg_chunk }

/-- `finalize_tool_call`: if the accumulated (stripped) name is non-empty,
create the `tool-{call_id}` message or update the tracked one in place. -/
def finalize_tool_call (st : HandlerState) (call_id : String) : HandlerState :=
  match alGet st.pcalls_by_id call_id with
  | none => st
  | some data =>
    let fn_name := pyStrip data.name
    let fn_args := pyStrip data.args
    if fn_name = "" then st
    else
      match alGet st.in_progress_tools call_id with
      | none =>
        let msg : MyChatMessage :=
          { role := "assistant", content := fn_args,
            metadata := [("title", get_function_title fn_name),
                         ("status", "pending"),
                         ("id", "tool-" ++ call_id)] }
        { st with conversation := st.conversation ++ [msg],
                  in_progress_tools := alSet st.in_progress_tools call_id st.conversation.length }
      | some idx =>
        { st with conversation := updateAt st.conversation idx (fun m =>
            { m with content := fn_args,
                     metadata := alSet m.metadata "title" (get_function_title fn_name) }) }

/-- The unresolved-index branch of `upsert_tool_call`: accumulate the chunks
into the index-keyed buffer (creating the `{"name": "", "args": ""}` entry
on first use). -/
def bufferAtIndex (st : HandlerState) (index : Option Nat) (name_chunk arg_chunk : String) :
    HandlerState :=
  { st with pcalls_by_index :=
      (alSet st.pcalls_by_index index
        (accumulate_args ((alGet st.pcalls_by_index index).getD emptyPC)
          name_chunk arg_chunk)) }

/-- The `bing_grounding` branch of `upsert_tool_call`. -/
def upsert_bing (st : HandlerState) (c_id : Option String) (request_url : String) :
    HandlerState :=
  if pyStrip request_url = "" then st
  else
    let query_str := extract_bing_query request_url
    if pyStrip query_str = "" then st
    else
      let msg : MyChatMessage :=
        { role := "assistant", content := query_str,
          metadata := [("title", get_function_title "bing_grounding"),
                       ("status", "pending"),
                       ("id", toolTag c_id)] }
      let st1 := { st with conversation := st.conversation ++ [msg] }
      if idTruthy c_id then
        { st1 with in_progress_tools := alSet st1.in_progress_tools (c_id.getD "") st.conversation.length }
      else st1

/-- The `file_search` branch of `upsert_tool_call`. -/
def upsert_file_search (st : HandlerState) (c_id : Option String) : HandlerState :=
  let msg : MyChatMessage :=
    { role := "assistant", content := "searching docs...",
      metadata := [("title", get_function_title "file_search"),
                   ("status", "pending"),
                   ("id", toolTag c_id)] }
  let st1 := { st with conversation := st.conversation ++ [msg] }
  if idTruthy c_id then
    { st1 with in_progress_tools := alSet st1.in_progress_tools (c_id.getD "") st.conversation.length }
  else st1

/-- The partial-function-call branch of `upsert_tool_call` (steps 4 onward
of the source): store a truthy id for the index, resolve the index, either
buffer index-keyed or migrate-then-accumulate id-keyed, then finalize. -/
def upsert_function (st : HandlerState) (index : Option Nat) (c_id : Option String)
    (name_chunk arg_chunk : String) : HandlerState :=
  let st1 := if idTruthy c_id then
      { st with call_id_for_index := alSet st.call_id_for_index index (c_id.getD "") }
    else st
  match alGet st1.call_id_for_index index with
  | none => bufferAtIndex st1 index name_chunk arg_chunk
  | some fid =>
    if fid = "" then bufferAtIndex st1 index name_chunk arg_chunk
    else
      let st2 := if (alGet st1.pcalls_by_id fid).isSome then st1
        else { st1 with pcalls_by_id := alSet st1.pcalls_by_id fid emptyPC }
      let st3 :=
        match alGet st2.pcalls_by_index index with
        | some old_data =>
          let cur := (alGet st2.pcalls_by_id fid).getD emptyPC
          { st2 with
            pcalls_by_index := alRemove st2.pcalls_by_index index,
            pcalls_by_id := alSet st2.pcalls_by_id fid
              (PartialCall.mk (cur.name ++ old_data.name) (cur.args ++ old_data.args)) }
        | none => st2
      let st4 := { st3 with pcalls_by_id :=
          (alSet st3.pcalls_by_id fid
            (accumulate_args ((alGet st3.pcalls_by_id fid).getD emptyPC)
              name_chunk arg_chunk)) }
      finalize_tool_call st4 fid

/-- `upsert_tool_call`: dispatch on the `type` field. -/
def upsert_tool_call (st : HandlerState) (tc : ToolCallDelta) : HandlerState :=
  if tc.ttype = "bing_grounding" then upsert_bing st tc.id tc.bingRequestUrl
  else if tc.ttype = "file_search" then upsert_file_search st tc.id
  else if tc.ttype = "function" then upsert_function st tc.index tc.id tc.fname tc.fargs
  else st

/-- The predicate of the reversed scan for an existing assistant bubble:
truthy metadata, matching `id`, role `assistant`. -/
def textMatch (message_id : String) (m : MyChatMessage) : Bool :=
  decide (m.metadata ≠ []) && (alGet m.metadata "id" == some message_id)
    && (m.role == "assistant")

/-- The `thread.message.delta` handling of the driver (source lines
358-397): append to the matching assistant bubble, else to a tail assistant
bubble that is not a tool bubble, else open a new assistant bubble. -/
def apply_text_delta (conv : List MyChatMessage) (message_id agent_msg : String) :
    List MyChatMessage :=
  match findLastIdx (textMatch message_id) conv with
  | some i => updateAt conv i (fun m => { m with content := m.content ++ agent_msg })
  | none =>
    match conv.getLast? with
    | none => conv ++ [MyChatMessage.mk "assistant" agent_msg []]
    | some last =>
      if last.role ≠ "assistant" then conv ++ [MyChatMessage.mk "assistant" agent_msg []]
      else if last.metadata ≠ [] ∧
          strStarts ((alGet last.metadata "id").getD "") "tool-" then
        conv ++ [MyChatMessage.mk "assistant" agent_msg []]
      else updateAt conv (conv.length - 1) (fun m => { m with content := m.content ++ agent_msg })

/-- `msg_obj.metadata["status"] = "done"`. -/
def setDone (m : MyChatMessage) : MyChatMessage :=
  { m with metadata := alSet m.metadata "status" "done" }

/-- `for cid, msg_obj in self.in_progress_tools.items(): ... = "done"`. -/
def markDone (conv : List MyChatMessage) : List (String × Nat) → List MyChatMessage
  | [] => conv
  | (_, idx) :: rest => markDone (updateAt conv idx setDone) rest

/-- The shared body of the three lifecycle-completion handlers: flip every
tracked in-progress tool message to `done` and clear the four transient
accumulator dicts. -/
def finalize_all (st : HandlerState) : HandlerState :=
  { conversation := markDone st.conversation st.in_progress_tools,
    call_id_for_index := [], pcalls_by_index := [],
    pcalls_by_id := [], in_progress_tools := [] }

/-- The stream events the driver consumes, carrying exactly the fields the
source reads.  `stepDelta` is `thread.run.step.delta`
(`delta.step_details.type` and `.tool_calls`); `runStep` is `run_step`
(`type`, `status`, `step_details.tool_calls`,
`step_details.message_creation.message_id`); `messageDelta` is
`thread.message.delta` (the `text.value` chunks and the event `id`);
`threadMessage` is `thread.message` (`role`, `status`); `messageCompleted`
is `thread.message.completed`; `other` is any unrecognized event type. -/
inductive AgentEvent where
  | stepDelta (stepType : String) (tool_calls : List ToolCallDelta)
  | runStep (stepType : String) (stepStatus : String) (tool_calls : List ToolCallDelta)
      (message_id : Option String)
  | messageDelta (chunks : List String) (message_id : String)
  | threadMessage (role : String) (status : String)
  | messageCompleted
  | other (eventType : String)
deriving DecidableEq, Repr

/-- The three lifecycle-completion events of the spec: the run-step
transition "tool calls completed", the completed assistant message, and the
stream-terminal event. -/
def completionEvent : AgentEvent → Bool
  | .runStep stepType stepStatus _ _ => stepType == "tool_calls" && stepStatus == "completed"
  | .threadMessage role status => role == "assistant" && status == "completed"
  | .messageCompleted => true
  | _ => false

/-- Result of handling one event: the successor state, the snapshots yielded
while handling it, and whether the loop breaks. -/
structure StepResult where
  state : HandlerState
  yields : List (List MyChatMessage)
  brk : Bool
deriving DecidableEq, Repr

/-- One iteration of the event loop of `stream_user_message` (source lines
300-422), dispatching on the event type exactly as the `if`/`elif` chain
does. -/
def handleEvent (st : HandlerState) : AgentEvent → StepResult
  | .stepDelta stepType tcs =>
    if stepType = "tool_calls" then
      let st' := tcs.foldl upsert_tool_call st
      { state := st', yields := [st'.conversation], brk := false }
    else { state := st, yields := [], brk := false }
  | .runStep stepType stepStatus tcs message_id =>
    if stepType = "tool_calls" ∧ stepStatus = "in_progress" then
      let st' := tcs.foldl upsert_tool_call st
      { state := st', yields := [st'.conversation], brk := false }
    else if stepType = "tool_calls" ∧ stepStatus = "completed" then
      let st' := finalize_all st
      { state := st', yields := [st'.conversation], brk := false }
    else if stepType = "message_creation" ∧ stepStatus = "in_progress" then
      let st' := if idTruthy message_id then
          { st with conversation := st.conversation ++ [MyChatMessage.mk "assistant" "" []] }
        else st
      { state := st', yields := [st'.conversation], brk := false }
    else if stepType = "message_creation" ∧ stepStatus = "completed" then
      { state := st, yields := [st.conversation], brk := false }
    else { state := st, yields := [], brk := false }
  | .messageDelta chunks message_id =>
    let agent_msg := chunks.foldl (fun acc c => acc ++ c) ""
    let st' := { st with conversation := apply_text_delta st.conversation message_id agent_msg }
    { state := st', yields := [st'.conversation], brk := false }
  | .threadMessage role status =>
    if role = "assistant" ∧ status = "completed" then
      let st' := finalize_all st
      { state := st', yields := [st'.conversation], brk := false }
    else { state := st, yields := [], brk := false }
  | .messageCompleted =>
    let st' := finalize_all st
    { state := st', yields := [st'.conversation], brk := true }
  | .other _ => { state := st, yields := [], brk := false }

/-- The `for item in stream` loop with its `break` on the terminal event:
returns the final state and the snapshots yielded inside the loop. -/
def runLoop (st : HandlerState) : List AgentEvent → HandlerState × List (List MyChatMessage)
  | [] => (st, [])
  | ev :: evs =>
    let r := handleEvent st ev
    if r.brk then (r.state, r.yields)
    else
      let rest := runLoop r.state evs
      (rest.1, r.yields ++ rest.2)

/-- Observable outcome of one `stream_user_message` call: the sequence of
yielded snapshots, and either the propagated transport error or the final
conversation returned on normal completion. -/
structure TurnResult where
  yields : List (List MyChatMessage)
  outcome : Except Unit (List MyChatMessage)
deriving Repr

/-- `stream_user_message`: reset `self.conversation` to the converted
history plus the new user message (the four accumulator dicts are instance
state and are *not* reset here), yield once, post the user message (a
transport failure propagates), open the stream (a transport failure
propagates), then run the event loop. -/
def stream_user_message (st : HandlerState) (user_message : String)
    (history : List MsgRecord) (postOk : Bool)
    (streamRes : Except Unit (List AgentEvent)) : TurnResult :=
  let st0 := { st with conversation :=
      (history.map convert_dict_to_mychatmessage ++ [MyChatMessage.mk "user" user_message []]) }
  if !postOk then { yields := [st0.conversation], outcome := .error () }
  else
    match streamRes with
    | .error e => { yields := [st0.conversation], outcome := .error e }
    | .ok events =>
      let r := runLoop st0 events
      { yields := st0.conversation :: r.2, outcome := .ok r.1.conversation }

/-- One incrementally streamed function-call fragment, as in the spec's
accumulation algorithm: optional call id, name chunk, argument chunk. -/
structure Frag where
  fid : Option String
  fn : String
  fa : String
deriving DecidableEq, Repr

/-- The `tcall` dict of a function fragment arriving under index `ix`. -/
def fragTo (ix : Option Nat) (f : Frag) : ToolCallDelta :=
  { ttype := "function", id := f.fid, bingRequestUrl := "", index := ix,
    fname := f.fn, fargs := f.fa }

/-- Process a sequence of function fragments, all under the same index. -/
def processFrags (st : HandlerState) (ix : Option Nat) (fs : List Frag) : HandlerState :=
  fs.foldl (fun s f => upsert_tool_call s (fragTo ix f)) st

/-- Concatenation, in arrival order, of the name chunks of a fragment list. -/
def namesCat : List Frag → String
  | [] => ""
  | f :: fs => f.fn ++ namesCat fs

/-- Concatenation, in arrival order, of the argument chunks of a fragment
list. -/
def argsCat : List Frag → String
  | [] => ""
  | f :: fs => f.fa ++ argsCat fs

/-- The contents of all timeline messages keyed `tool-{c}`. -/
def toolContents (conv : List MyChatMessage) (c : String) : List String :=
  (conv.filter (fun m => alGet m.metadata "id" == some ("tool-" ++ c))).map (fun m => m.content)

/-- Modelled from the spec (claim wording) for comparison with the code:
the three-way text-delta rule exactly as claimed, in which branch (a)
appends to *any* timeline message carrying the id. -/
def textDeltaClaimed (conv : List MyChatMessage) (message_id agent_msg : String) :
    List MyChatMessage :=
  match findLastIdx (fun m => alGet m.metadata "id" == some message_id) conv with
  | some i => updateAt conv i (fun m => { m with content := m.content ++ agent_msg })
  | none =>
    match conv.getLast? with
    | some last =>
      if last.role == "assistant"
          && !(strStarts ((alGet last.metadata "id").getD "") "tool-") then
        updateAt conv (conv.length - 1) (fun m => { m with content := m.content ++ agent_msg })
      else conv ++ [MyChatMessage.mk "assistant" agent_msg []]
    | none => conv ++ [MyChatMessage.mk "assistant" agent_msg []]

/-- Modelled from the amended claim: the same three-way rule with branch (a)
restricted to *assistant* messages carrying the id. -/
def textDeltaAmendedRule (conv : List MyChatMessage) (message_id agent_msg : String) :
    List MyChatMessage :=
  match findLastIdx (fun m => m.role == "assistant"
      && (alGet m.metadata "id" == some message_id)) conv with
  | some i => updateAt conv i (fun m => { m with content := m.content ++ agent_msg })
  | none =>
    match conv.getLast? with
    | some last =>
      if last.role == "assistant"
          && !(strStarts ((alGet last.metadata "id").getD "") "tool-") then
        updateAt conv (conv.length - 1) (fun m => { m with content := m.content ++ agent_msg })
      else conv ++ [MyChatMessage.mk "assistant" agent_msg []]
    | none => conv ++ [MyChatMessage.mk "assistant" agent_msg []]

/-- `s` contains an occurrence of the pattern `q="([^"]+)"` with capture
`q`: some prefix `a`, the literal `q="`, a non-empty quote-free capture,
the closing quote, a suffix `b`. -/
def bingDecomp (s : String) (a q b : List Char) : Prop :=
  s.data = a ++ 'q' :: '=' :: '"' :: (q ++ '"' :: b) ∧ q ≠ [] ∧ '"' ∉ q

/-- Invariant of the accumulation phase after the stable id `c` has been
bound to index `ix`, with `N`/`A` the name/argument chunks accumulated so
far: the id-keyed bucket holds exactly them, the index-keyed buffer is
gone, and the `tool-{c}` message exists (content = stripped `A`) exactly
when the stripped name is non-empty. -/
def C1Inv (c0 : List MyChatMessage) (ix : Option Nat) (c : String) (N A : String)
    (st : HandlerState) : Prop :=
  st.call_id_for_index = [(ix, c)] ∧ st.pcalls_by_index = [] ∧
  st.pcalls_by_id = [(c, PartialCall.mk N A)] ∧
  (if pyStrip N = "" then st.in_progress_tools = [] ∧ st.conversation = c0
   else st.in_progress_tools = [(c, c0.length)] ∧
     st.conversation = c0 ++ [MyChatMessage.mk "assistant" (pyStrip A)
       [("title", get_function_title (pyStrip N)), ("status", "pending"),
        ("id", "tool-" ++ c)]])

theorem alGet_alSet_self {κ α : Type} [DecidableEq κ] (l : List (κ × α)) (k : κ) (v : α) :
    alGet (alSet l k v) k = some v := by
  induction l with
  | nil => simp [alSet, alGet]
  | cons p rest ih =>
    obtain ⟨k', v'⟩ := p
    by_cases h : k' = k
    · simp [alSet, alGet, h]
    · simp [alSet, alGet, h, ih]

theorem length_updateAt {α : Type} (l : List α) (i : Nat) (f : α → α) :
    (updateAt l i f).length = l.length := by
  induction l generalizing i with
  | nil => rfl
  | cons x xs ih => cases i <;> simp [updateAt, ih]

theorem getElem?_updateAt_eq {α : Type} (l : List α) (i : Nat) (f : α → α) :
    (updateAt l i f)[i]? = (l[i]?).map f := by
  induction l generalizing i with
  | nil => simp [updateAt]
  | cons x xs ih => cases i <;> simp [updateAt, ih]

theorem getElem?_updateAt_ne {α : Type} (l : List α) (i j : Nat) (f : α → α) (h : i ≠ j) :
    (updateAt l i f)[j]? = l[j]? := by
  induction l generalizing i j with
  | nil => simp [updateAt]
  | cons x xs ih =>
    cases i with
    | zero =>
      cases j with
      | zero => exact absurd rfl h
      | succ j => simp [updateAt]
    | succ i =>
      cases j with
      | zero => simp [updateAt]
      | succ j => simpa [updateAt] using ih i j (by omega)

theorem updateAt_append_len {α : Type} (l : List α) (x : α) (f : α → α) :
    updateAt (l ++ [x]) l.length f = l ++ [f x] := by
  induction l with
  | nil => rfl
  | cons y ys ih => simp [updateAt, ih]

theorem pyStripL_eq_nil_iff (l : List Char) : pyStripL l = [] ↔ ∀ c ∈ l, isPyWs c := by
  unfold pyStripL
  rw [List.reverse_eq_nil_iff, List.dropWhile_eq_nil_iff]
  constructor
  · intro h c hc
    rw [← List.takeWhile_append_dropWhile isPyWs l] at hc
    rcases List.mem_append.mp hc with hc | hc
    · exact List.mem_takeWhile_imp hc
    · exact h c (List.mem_reverse.mpr hc)
  · intro h x hx
    exact h x ((List.dropWhile_sublist isPyWs).mem (List.mem_reverse.mp hx))

theorem pyStrip_eq_empty_iff (s : String) : pyStrip s = "" ↔ ∀ c ∈ s.data, isPyWs c := by
  rw [show pyStrip s = String.mk (pyStripL s.data) from rfl, String.ext_iff]
  exact pyStripL_eq_nil_iff s.data

theorem pyStrip_append_left (s t : String) (h : pyStrip (s ++ t) = "") : pyStrip s = "" := by
  rw [pyStrip_eq_empty_iff] at h ⊢
  intro c hc
  exact h c (by rw [String.data_append]; exact List.mem_append_left _ hc)

theorem splitAtQuote_eq_some {l run after : List Char}
    (h : splitAtQuote l = some (run, after)) : l = run ++ '"' :: after ∧ '"' ∉ run := by
  induction l generalizing run after with
  | nil => simp [splitAtQuote] at h
  | cons c rest ih =>
    by_cases hc : c = '"'
    · subst hc
      simp [splitAtQuote] at h
      obtain ⟨h1, h2⟩ := h
      subst h1; subst h2
      simp
    · rw [splitAtQuote] at h
      simp only [hc, if_false] at h
      cases hsp : splitAtQuote rest with
      | none => rw [hsp] at h; simp at h
      | some p =>
        obtain ⟨r, a⟩ := p
        rw [hsp] at h
        simp at h
        obtain ⟨hr, ha⟩ := h
        obtain ⟨hl, hn⟩ := ih hsp
        subst hr; subst ha
        refine ⟨by simp [hl], ?_⟩
        simp [hn, Ne.symm hc]

theorem splitAtQuote_append (run after : List Char) (h : '"' ∉ run) :
    splitAtQuote (run ++ '"' :: after) = some (run, after) := by
  induction run with
  | nil => simp [splitAtQuote]
  | cons c rest ih =>
    have hc : ¬(c = '"') := fun e => h (by simp [e])
    simp only [List.cons_append, splitAtQuote, hc, if_false]
    rw [show rest.append ('"' :: after) = rest ++ '"' :: after from rfl,
      ih (fun hm => h (List.mem_cons_of_mem _ hm))]

theorem headMatch_eq_some {l q : List Char} (h : headMatch l = some q) :
    ∃ b, l = 'q' :: '=' :: '"' :: (q ++ '"' :: b) ∧ q ≠ [] ∧ '"' ∉ q := by
  match l with
  | [] => simp [headMatch] at h
  | [a] => simp [headMatch] at h
  | [a, b] => simp [headMatch] at h
  | a :: b :: c :: rest =>
    rw [headMatch] at h
    by_cases hq : a = 'q' ∧ b = '=' ∧ c = '"'
    · obtain ⟨h1, h2, h3⟩ := hq
      subst h1; subst h2; subst h3
      simp only [true_and, and_self, if_true] at h
      cases hsp : splitAtQuote rest with
      | none => rw [hsp] at h; simp at h
      | some p =>
        obtain ⟨run, after⟩ := p
        rw [hsp] at h
        by_cases hrun : run = []
        · simp [hrun] at h
        · simp [hrun] at h
          subst h
          obtain ⟨hl, hn⟩ := splitAtQuote_eq_some hsp
          exact ⟨after, by rw [hl], hrun, hn⟩
    · rw [if_neg hq] at h
      simp at h

theorem headMatch_decomp (q b : List Char) (hq : q ≠ []) (hn : '"' ∉ q) :
    headMatch ('q' :: '=' :: '"' :: (q ++ '"' :: b)) = some q := by
  rw [headMatch]
  simp only [true_and, and_self, if_true]
  rw [splitAtQuote_append q b hn]
  simp [hq]

theorem searchQ_eq_some {l q : List Char} (h : searchQ l = some q) :
    ∃ a b, l = a ++ 'q' :: '=' :: '"' :: (q ++ '"' :: b) ∧ q ≠ [] ∧ '"' ∉ q := by
  induction l with
  | nil => simp [searchQ] at h
  | cons c cs ih =>
    rw [searchQ] at h
    cases hh : headMatch (c :: cs) with
    | some run =>
      rw [hh] at h
      simp at h
      subst h
      obtain ⟨b, hl, hq, hn⟩ := headMatch_eq_some hh
      exact ⟨[], b, by simpa using hl, hq, hn⟩
    | none =>
      rw [hh] at h
      obtain ⟨a, b, hl, hq, hn⟩ := ih h
      exact ⟨c :: a, b, by simp [hl], hq, hn⟩

theorem searchQ_eq_none {l : List Char} (h : searchQ l = none) :
    ∀ a q b, q ≠ [] → '"' ∉ q → l ≠ a ++ 'q' :: '=' :: '"' :: (q ++ '"' :: b) := by
  induction l with
  | nil =>
    intro a q b _ _ heq
    cases a <;> simp at heq
  | cons c cs ih =>
    rw [searchQ] at h
    cases hh : headMatch (c :: cs) with
    | some run => rw [hh] at h; simp at h
    | none =>
      rw [hh] at h
      intro a q b hq hn heq
      cases a with
      | nil =>
        simp only [List.nil_append] at heq
        rw [heq] at hh
        rw [headMatch_decomp q b hq hn] at hh
        exact Option.noConfusion hh
      | cons a0 as =>
        simp only [List.cons_append, List.cons.injEq] at heq
        exact ih h as q b hq hn heq.2

theorem markDone_preserve_done (conv : List MyChatMessage) (l : List (String × Nat))
    (idx : Nat) (m : MyChatMessage) (hm : conv[idx]? = some m)
    (hdone : alGet m.metadata "status" = some "done") :
    ∃ m', (markDone conv l)[idx]? = some m' ∧ alGet m'.metadata "status" = some "done" := by
  induction l generalizing conv m with
  | nil => exact ⟨m, hm, hdone⟩
  | cons p rest ih =>
    obtain ⟨c, i⟩ := p
    rw [markDone]
    by_cases hij : i = idx
    · subst hij
      refine ih (updateAt conv i setDone) (setDone m) ?_ ?_
      · rw [getElem?_updateAt_eq, hm]; rfl
      · exact alGet_alSet_self m.metadata "status" "done"
    · exact ih (updateAt conv i setDone) m (by rw [getElem?_updateAt_ne conv i idx setDone hij]; exact hm) hdone

theorem markDone_sets_done (conv : List MyChatMessage) (l : List (String × Nat))
    (c : String) (idx : Nat) (hmem : (c, idx) ∈ l) (hlt : idx < conv.length) :
    ∃ m', (markDone conv l)[idx]? = some m' ∧ alGet m'.metadata "status" = some "done" := by
  induction l generalizing conv with
  | nil => cases hmem
  | cons p rest ih =>
    obtain ⟨c', i⟩ := p
    rw [markDone]
    rcases List.mem_cons.mp hmem with heq | hmem'
    · injection heq with h1 h2
      subst h2
      have hm : conv[idx]? = some conv[idx] := List.getElem?_eq_getElem hlt
      exact markDone_preserve_done (updateAt conv idx setDone) rest idx (setDone conv[idx])
        (by rw [getElem?_updateAt_eq, hm]; rfl) (alGet_alSet_self _ "status" "done")
    · exact ih (updateAt conv i setDone) hmem' (by rw [length_updateAt]; exact hlt)

theorem finalize_fields (st : HandlerState) (c : String) :
    (finalize_tool_call st c).call_id_for_index = st.call_id_for_index ∧
    (finalize_tool_call st c).pcalls_by_index = st.pcalls_by_index ∧
    (finalize_tool_call st c).pcalls_by_id = st.pcalls_by_id := by
  unfold finalize_tool_call
  split
  · exact ⟨rfl, rfl, rfl⟩
  · dsimp only
    split
    · exact ⟨rfl, rfl, rfl⟩
    · split <;> exact ⟨rfl, rfl, rfl⟩

theorem upsert_function_cif (st : HandlerState) (ix : Option Nat) (oid : Option String)
    (n a : String) :
    (upsert_function st ix oid n a).call_id_for_index
      = if idTruthy oid then alSet st.call_id_for_index ix (oid.getD "")
        else st.call_id_for_index := by
  unfold upsert_function
  by_cases hid : idTruthy oid <;> simp only [hid, if_true, if_false, Bool.false_eq_true] <;>
    · split
      · simp [bufferAtIndex]
      · split
        · simp [bufferAtIndex]
        · split <;> split <;> exact (finalize_fields _ _).1

theorem findLastIdx_congr {α : Type} {p q : α → Bool} (h : ∀ x, p x = q x) (l : List α) :
    findLastIdx p l = findLastIdx q l := by
  induction l with
  | nil => rfl
  | cons x xs ih => rw [findLastIdx, findLastIdx, ih, h x]

theorem textMatch_eq (mid : String) (m : MyChatMessage) :
    textMatch mid m = ((m.role == "assistant") && (alGet m.metadata "id" == some mid)) := by
  unfold textMatch
  by_cases h : alGet m.metadata "id" = some mid
  · have hne : m.metadata ≠ [] := by
      intro e
      rw [e] at h
      simp [alGet] at h
    simp [h, hne, Bool.and_comm]
  · have hb : (alGet m.metadata "id" == some mid) = false := by
      rw [beq_eq_false_iff_ne]
      exact h
    simp [hb]

theorem apply_text_delta_eq_amended (conv : List MyChatMessage) (mid chunk : String) :
    apply_text_delta conv mid chunk = textDeltaAmendedRule conv mid chunk := by
  unfold apply_text_delta textDeltaAmendedRule
  rw [findLastIdx_congr (fun m => textMatch_eq mid m) conv]
  cases hfind : findLastIdx (fun m =>
      (m.role == "assistant") && (alGet m.metadata "id" == some mid)) conv with
  | some i => rfl
  | none =>
    cases hlast : conv.getLast? with
    | none => rfl
    | some last =>
      by_cases hrole : last.role = "assistant"
      · by_cases hmd : last.metadata = []
        · have hs : strStarts (((alGet ([] : List (String × String)) "id")).getD "") "tool-" = false := by
            decide
          simp [hrole, hmd, hs]
        · by_cases hst : strStarts ((alGet last.metadata "id").getD "") "tool-"
          · simp [hrole, hmd, hst]
          · simp [hrole, hmd, hst]
      · simp [hrole]

theorem processFrags_nil (st : HandlerState) (ix : Option Nat) :
    processFrags st ix [] = st := rfl

theorem processFrags_cons (st : HandlerState) (ix : Option Nat) (f : Frag) (fs : List Frag) :
    processFrags st ix (f :: fs) = processFrags (upsert_tool_call st (fragTo ix f)) ix fs := rfl

theorem processFrags_append (st : HandlerState) (ix : Option Nat) (xs ys : List Frag) :
    processFrags st ix (xs ++ ys) = processFrags (processFrags st ix xs) ix ys := by
  simp [processFrags]

theorem namesCat_append (xs ys : List Frag) :
    namesCat (xs ++ ys) = namesCat xs ++ namesCat ys := by
  induction xs with
  | nil => simp [namesCat]
  | cons x xs ih => simp [namesCat, ih, String.append_assoc]

theorem argsCat_append (xs ys : List Frag) :
    argsCat (xs ++ ys) = argsCat xs ++ argsCat ys := by
  induction xs with
  | nil => simp [argsCat]
  | cons x xs ih => simp [argsCat, ih, String.append_assoc]

theorem upsert_fragTo (st : HandlerState) (ix : Option Nat) (f : Frag) :
    upsert_tool_call st (fragTo ix f) = upsert_function st ix f.fid f.fn f.fa := by
  simp [upsert_tool_call, fragTo]

theorem upsert_function_unresolved (st : HandlerState) (ix : Option Nat)
    (oid : Option String) (n a : String) (hid : idTruthy oid = false)
    (hcif : alGet st.call_id_for_index ix = none) :
    upsert_function st ix oid n a = bufferAtIndex st ix n a := by
  simp [upsert_function, hid, hcif]

theorem buffer_first (c0 : List MyChatMessage) (ix : Option Nat) (n a : String) :
    bufferAtIndex (HandlerState.mk c0 [] [] [] []) ix n a
      = HandlerState.mk c0 [] [(ix, PartialCall.mk n a)] [] [] := by
  simp [bufferAtIndex, alGet, alSet, accumulate_args, emptyPC]

theorem processFrags_unresolved (c0 : List MyChatMessage) (ix : Option Nat)
    (pre : List Frag) (hpre : ∀ g ∈ pre, idTruthy g.fid = false) (nm ar : String) :
    processFrags (HandlerState.mk c0 [] [(ix, PartialCall.mk nm ar)] [] []) ix pre
      = HandlerState.mk c0 []
          [(ix, PartialCall.mk (nm ++ namesCat pre) (ar ++ argsCat pre))] [] [] := by
  induction pre generalizing nm ar with
  | nil => simp [processFrags_nil, namesCat, argsCat]
  | cons g gs ih =>
    rw [processFrags_cons, upsert_fragTo,
      upsert_function_unresolved (HandlerState.mk c0 [] [(ix, PartialCall.mk nm ar)] [] [])
        ix g.fid g.fn g.fa (hpre g (List.mem_cons_self g gs)) rfl]
    have hbuf : bufferAtIndex (HandlerState.mk c0 [] [(ix, PartialCall.mk nm ar)] [] []) ix g.fn g.fa
        = HandlerState.mk c0 [] [(ix, PartialCall.mk (nm ++ g.fn) (ar ++ g.fa))] [] [] := by
      simp [bufferAtIndex, alGet, alSet, accumulate_args]
    rw [hbuf, ih (fun x hx => hpre x (List.mem_cons_of_mem _ hx))]
    simp [namesCat, argsCat, String.append_assoc]

theorem upsert_id_arrival (c0 : List MyChatMessage) (ix : Option Nat) (c : String)
    (N A : String) (f : Frag) (hc : c ≠ "") (hf : f.fid = some c) :
    upsert_tool_call (HandlerState.mk c0 [] [(ix, PartialCall.mk N A)] [] []) (fragTo ix f)
      = finalize_tool_call
          (HandlerState.mk c0 [(ix, c)] [] [(c, PartialCall.mk (N ++ f.fn) (A ++ f.fa))] []) c := by
  rw [upsert_fragTo, hf]
  simp [upsert_function, idTruthy, hc, alGet, alSet, alRemove, accumulate_args, emptyPC]

theorem finalize_not_created (c0 : List MyChatMessage) (ix : Option Nat) (c : String)
    (N A : String) (_hc : c ≠ "") :
    finalize_tool_call (HandlerState.mk c0 [(ix, c)] [] [(c, PartialCall.mk N A)] []) c
      = if pyStrip N = "" then HandlerState.mk c0 [(ix, c)] [] [(c, PartialCall.mk N A)] []
        else HandlerState.mk
          (c0 ++ [MyChatMessage.mk "assistant" (pyStrip A)
            [("title", get_function_title (pyStrip N)), ("status", "pending"),
             ("id", "tool-" ++ c)]])
          [(ix, c)] [] [(c, PartialCall.mk N A)] [(c, c0.length)] := by
  unfold finalize_tool_call
  simp only [alGet, if_pos rfl]
  by_cases hN : pyStrip N = "" <;> simp [hN, alSet]

theorem C1Inv_arrival (c0 : List MyChatMessage) (ix : Option Nat) (c : String)
    (N A : String) (f : Frag) (hc : c ≠ "") (hf : f.fid = some c) :
    C1Inv c0 ix c (N ++ f.fn) (A ++ f.fa)
      (upsert_tool_call (HandlerState.mk c0 [] [(ix, PartialCall.mk N A)] [] [])
        (fragTo ix f)) := by
  rw [upsert_id_arrival c0 ix c N A f hc hf, finalize_not_created c0 ix c _ _ hc]
  by_cases hN : pyStrip (N ++ f.fn) = "" <;> simp [C1Inv, hN]

theorem finalize_created (c0 : List MyChatMessage) (ix : Option Nat) (c : String)
    (N A T0 A0 : String) (hN : pyStrip N ≠ "") :
    finalize_tool_call (HandlerState.mk
        (c0 ++ [MyChatMessage.mk "assistant" A0
          [("title", T0), ("status", "pending"), ("id", "tool-" ++ c)]])
        [(ix, c)] [] [(c, PartialCall.mk N A)] [(c, c0.length)]) c
      = HandlerState.mk
          (c0 ++ [MyChatMessage.mk "assistant" (pyStrip A)
            [("title", get_function_title (pyStrip N)), ("status", "pending"),
             ("id", "tool-" ++ c)]])
          [(ix, c)] [] [(c, PartialCall.mk N A)] [(c, c0.length)] := by
  unfold finalize_tool_call
  simp [alGet, hN, updateAt_append_len, alSet]

theorem C1Inv_step (c0 : List MyChatMessage) (ix : Option Nat) (c : String)
    (N A : String) (st : HandlerState) (g : Frag) (hc : c ≠ "")
    (hg : idTruthy g.fid = false ∨ g.fid = some c)
    (hinv : C1Inv c0 ix c N A st) :
    C1Inv c0 ix c (N ++ g.fn) (A ++ g.fa) (upsert_tool_call st (fragTo ix g)) := by
  obtain ⟨conv, cif, pbi, pbid, ipt⟩ := st
  obtain ⟨h1, h2, h3, h4⟩ := hinv
  dsimp only at h1 h2 h3 h4
  subst h1; subst h2; subst h3
  have hcomp : upsert_tool_call (HandlerState.mk conv [(ix, c)] [] [(c, PartialCall.mk N A)] ipt)
        (fragTo ix g)
      = finalize_tool_call
          (HandlerState.mk conv [(ix, c)] [] [(c, PartialCall.mk (N ++ g.fn) (A ++ g.fa))] ipt)
          c := by
    rw [upsert_fragTo]
    rcases hg with hg | hg
    · simp [upsert_function, hg, hc, alGet, alSet, accumulate_args]
    · rw [hg]
      simp [upsert_function, idTruthy, hc, alGet, alSet, accumulate_args]
  rw [hcomp]
  by_cases hN : pyStrip N = ""
  · rw [if_pos hN] at h4
    obtain ⟨hipt, hconv⟩ := h4
    subst hipt
    rw [hconv, finalize_not_created c0 ix c _ _ hc]
    by_cases hN2 : pyStrip (N ++ g.fn) = "" <;> simp [C1Inv, hN2]
  · rw [if_neg hN] at h4
    obtain ⟨hipt, hconv⟩ := h4
    subst hipt
    have hN2 : pyStrip (N ++ g.fn) ≠ "" := fun h => hN (pyStrip_append_left _ _ h)
    rw [hconv, finalize_created c0 ix c (N ++ g.fn) (A ++ g.fa)
      (get_function_title (pyStrip N)) (pyStrip A) hN2]
    simp [C1Inv, hN2]

theorem C1Inv_processFrags (c0 : List MyChatMessage) (ix : Option Nat) (c : String)
    (hc : c ≠ "") (post : List Frag)
    (hpost : ∀ g ∈ post, idTruthy g.fid = false ∨ g.fid = some c) :
    ∀ N A st, C1Inv c0 ix c N A st →
      C1Inv c0 ix c (N ++ namesCat post) (A ++ argsCat post) (processFrags st ix post) := by
  induction post with
  | nil =>
    intro N A st h
    simpa [processFrags_nil, namesCat, argsCat] using h
  | cons g gs ih =>
    intro N A st h
    rw [processFrags_cons]
    have hstep := C1Inv_step c0 ix c N A st g hc (hpost g (List.mem_cons_self g gs)) h
    have := ih (fun x hx => hpost x (List.mem_cons_of_mem _ hx))
      (N ++ g.fn) (A ++ g.fa) _ hstep
    simpa [namesCat, argsCat, String.append_assoc] using this

/-- C1 (amended): for every sequence of incrementally streamed function-call
fragments under one index in which the stable call id `c` first arrives
after one or more chunks (and every later id equals `c`), the final
`tool-{c}` message content equals the concatenation of all argument chunks
in arrival order *with leading and trailing whitespace stripped* (the
`finalize_tool_call` step applies `str.strip()` before publishing), provided
the accumulated stripped name is non-empty (else no message exists). -/
theorem C1_main (c0 : List MyChatMessage) (ix : Option Nat) (c : String)
    (g0 f : Frag) (pre post : List Frag)
    (hc : c ≠ "")
    (hg0 : idTruthy g0.fid = false)
    (hpre : ∀ g ∈ pre, idTruthy g.fid = false)
    (hf : f.fid = some c)
    (hpost : ∀ g ∈ post, idTruthy g.fid = false ∨ g.fid = some c)
    (hclean : ∀ m ∈ c0, ¬ alGet m.metadata "id" = some ("tool-" ++ c))
    (hname : pyStrip (namesCat (g0 :: (pre ++ f :: post))) ≠ "") :
    toolContents
        (processFrags (HandlerState.mk c0 [] [] [] []) ix (g0 :: (pre ++ f :: post))).conversation
        c
      = [pyStrip (argsCat (g0 :: (pre ++ f :: post)))] := by
  have hsplit : g0 :: (pre ++ f :: post) = (g0 :: pre) ++ (f :: post) := rfl
  have hphase1 : processFrags (HandlerState.mk c0 [] [] [] []) ix (g0 :: pre)
      = HandlerState.mk c0 []
          [(ix, PartialCall.mk (g0.fn ++ namesCat pre) (g0.fa ++ argsCat pre))] [] [] := by
    rw [processFrags_cons, upsert_fragTo,
      upsert_function_unresolved (HandlerState.mk c0 [] [] [] []) ix g0.fid g0.fn g0.fa hg0 rfl,
      buffer_first, processFrags_unresolved c0 ix pre hpre g0.fn g0.fa]
  rw [hsplit, processFrags_append, hphase1, processFrags_cons]
  have harr := C1Inv_arrival c0 ix c (g0.fn ++ namesCat pre) (g0.fa ++ argsCat pre) f hc hf
  have hfin := C1Inv_processFrags c0 ix c hc post hpost _ _ _ harr
  have hNeq : g0.fn ++ namesCat pre ++ f.fn ++ namesCat post
      = namesCat (g0 :: (pre ++ f :: post)) := by
    simp [namesCat, namesCat_append, String.append_assoc]
  have hAeq : g0.fa ++ argsCat pre ++ f.fa ++ argsCat post
      = argsCat (g0 :: (pre ++ f :: post)) := by
    simp [argsCat, argsCat_append, String.append_assoc]
  rw [hNeq, hAeq] at hfin
  obtain ⟨-, -, -, h4⟩ := hfin
  rw [if_neg hname] at h4
  obtain ⟨-, hconv⟩ := h4
  rw [hconv]
  simp only [toolContents, List.filter_append]
  have hc0 : c0.filter (fun m => alGet m.metadata "id" == some ("tool-" ++ c)) = [] := by
    rw [List.filter_eq_nil_iff]
    intro m hm h
    exact hclean m hm (by simpa using h)
  rw [hc0]
  simp [alGet]

theorem handleEvent_completion_state (st : HandlerState) (ev : AgentEvent)
    (hev : completionEvent ev = true) :
    (handleEvent st ev).state = finalize_all st := by
  cases ev with
  | runStep s t tcs m =>
    simp only [completionEvent, Bool.and_eq_true, beq_iff_eq] at hev
    obtain ⟨hs, ht⟩ := hev
    subst hs; subst ht
    simp [handleEvent]
  | threadMessage r s =>
    simp only [completionEvent, Bool.and_eq_true, beq_iff_eq] at hev
    obtain ⟨hr, hs⟩ := hev
    subst hr; subst hs
    simp [handleEvent]
  | messageCompleted => rfl
  | stepDelta s tcs => simp [completionEvent] at hev
  | messageDelta cks m => simp [completionEvent] at hev
  | other e => simp [completionEvent] at hev

/-- C1 (counterexample to the claim as stated): with one argument chunk
`" hello"` buffered under index 0 before the id `"c"` arrives, the final
`tool-c` message content is `"hello"`, not the exact concatenation
`" hello"` — `finalize_tool_call` strips the accumulated arguments. -/
theorem C1_counterexample :
    toolContents (processFrags emptyHandlerState (some 0)
        [Frag.mk none "f" " hello", Frag.mk (some "c") "" ""]).conversation "c"
      ≠ [argsCat [Frag.mk none "f" " hello", Frag.mk (some "c") "" ""]] := by
  decide

/-- C1 (witness): the amended statement evaluated on a concrete run: chunks
`" par"` (no id) then `"is"` (id `"call7"`) produce content `"paris"`. -/
theorem C1_witness :
    toolContents (processFrags (HandlerState.mk [] [] [] [] []) (some 0)
        [Frag.mk none "fetch_weather" " par", Frag.mk (some "call7") "" "is"]).conversation
        "call7"
      = [pyStrip (argsCat [Frag.mk none "fetch_weather" " par",
          Frag.mk (some "call7") "" "is"])] :=
  C1_main [] (some 0) "call7" (Frag.mk none "fetch_weather" " par")
    (Frag.mk (some "call7") "" "is") [] [] (by decide) (by decide) (by simp)
    rfl (by simp) (by simp) (by decide)

/-- C2 (counterexample to the claim as stated): two function deltas under
index 0 carrying ids `"a"` then `"b"`: the final binding for index 0 is
`"b"`, so the first non-empty id did not win and the entry was overwritten. -/
theorem C2_counterexample :
    alGet (processFrags emptyHandlerState (some 0)
        [Frag.mk (some "a") "" "x", Frag.mk (some "b") "" "y"]).call_id_for_index (some 0)
      = some "b" ∧ ("b" : String) ≠ "a" := by
  decide

/-- C2 (amended): every function-call delta carrying a non-empty call id
(re)writes the index binding to that id — the *last* non-empty id wins —
while deltas without a truthy id leave the whole map unchanged. -/
theorem C2_amended :
    (∀ (st : HandlerState) (ix : Option Nat) (c n a : String), c ≠ "" →
      alGet (upsert_tool_call st
          (ToolCallDelta.mk "function" (some c) "" ix n a)).call_id_for_index ix
        = some c) ∧
    (∀ (st : HandlerState) (ix : Option Nat) (oid : Option String) (n a : String),
      idTruthy oid = false →
      (upsert_tool_call st (ToolCallDelta.mk "function" oid "" ix n a)).call_id_for_index
        = st.call_id_for_index) := by
  constructor
  · intro st ix c n a hc
    have h1 : upsert_tool_call st (ToolCallDelta.mk "function" (some c) "" ix n a)
        = upsert_function st ix (some c) n a := by
      simp [upsert_tool_call]
    rw [h1, upsert_function_cif]
    simp [idTruthy, hc, alGet_alSet_self]
  · intro st ix oid n a hid
    have h1 : upsert_tool_call st (ToolCallDelta.mk "function" oid "" ix n a)
        = upsert_function st ix oid n a := by
      simp [upsert_tool_call]
    rw [h1, upsert_function_cif, if_neg (by simp [hid])]

/-- C2 (witness): on the empty state, a delta with id `"b"` at index 0
binds index 0 to `"b"`. -/
theorem C2_witness :
    alGet (upsert_tool_call emptyHandlerState
        (ToolCallDelta.mk "function" (some "b") "" (some 0) "" "y")).call_id_for_index (some 0)
      = some "b" :=
  C2_amended.1 emptyHandlerState (some 0) "b" "" "y" (by decide)

/-- C3 (counterexample to the claim as stated): a `bing_grounding` delta
without a call id creates a `pending` message keyed `tool-noid` that is
never registered in `in_progress_tools`; after the "tool calls completed"
transition it is still `pending`, so not every pending message flips to
`done`. -/
theorem C3_counterexample :
    ((handleEvent (upsert_tool_call emptyHandlerState
          (ToolCallDelta.mk "bing_grounding" none "u?q=\"hi\"" none "" ""))
        (AgentEvent.runStep "tool_calls" "completed" [] none)).state.conversation.map
      (fun m => alGet m.metadata "status")) = [some "pending"] := by
  decide

/-- C3 (amended): after any lifecycle-completion event ("tool calls
completed", completed assistant message, stream-terminal), all four
transient accumulators are empty, and every message *registered in the
in-progress set* has status `done`; messages created without a call id
(keyed `tool-noid`) are not registered and may stay `pending`. -/
theorem C3_amended (st : HandlerState) (ev : AgentEvent)
    (hev : completionEvent ev = true) :
    ((handleEvent st ev).state.call_id_for_index = [] ∧
     (handleEvent st ev).state.pcalls_by_index = [] ∧
     (handleEvent st ev).state.pcalls_by_id = [] ∧
     (handleEvent st ev).state.in_progress_tools = []) ∧
    ∀ cid idx, (cid, idx) ∈ st.in_progress_tools → idx < st.conversation.length →
      ∃ m, (handleEvent st ev).state.conversation[idx]? = some m ∧
        alGet m.metadata "status" = some "done" := by
  rw [handleEvent_completion_state st ev hev]
  refine ⟨⟨rfl, rfl, rfl, rfl⟩, ?_⟩
  intro cid idx hmem hlt
  exact markDone_sets_done st.conversation st.in_progress_tools cid idx hmem hlt

/-- C3 (witness): a tracked pending tool message at position 0 is `done`
after the stream-terminal event. -/
theorem C3_witness :
    ∃ m, (handleEvent
        (HandlerState.mk [MyChatMessage.mk "assistant" "x" [("status", "pending")]]
          [] [] [] [("c", 0)])
        AgentEvent.messageCompleted).state.conversation[0]? = some m ∧
      alGet m.metadata "status" = some "done" :=
  (C3_amended
    (HandlerState.mk [MyChatMessage.mk "assistant" "x" [("status", "pending")]]
      [] [] [] [("c", 0)])
    AgentEvent.messageCompleted rfl).2 "c" 0 (by decide) (by decide)

/-- C4 (counterexample to the claim as stated): two `bing_grounding` deltas
with the same call id `"B"` append two distinct messages both keyed
`tool-B`, so more than one ChatMessage exists for that call. -/
theorem C4_counterexample :
    (toolContents (upsert_tool_call (upsert_tool_call emptyHandlerState
        (ToolCallDelta.mk "bing_grounding" (some "B") "u?q=\"hi\"" none "" ""))
        (ToolCallDelta.mk "bing_grounding" (some "B") "u?q=\"hi\"" none "" "")).conversation
        "B").length = 2 := by
  decide

/-- C4 (amended): for incrementally streamed *function* calls the claim
holds: finalizing a call id already tracked in `in_progress_tools` updates
the tracked message in place and never appends a new message; the
single-shot bing-grounding / file-search branches, however, append a fresh
message on every event, so a repeated single-shot delta with one id yields
multiple `tool-{id}` messages. -/
theorem C4_amended (st : HandlerState) (c : String) (i : Nat)
    (h : alGet st.in_progress_tools c = some i) :
    (finalize_tool_call st c).conversation.length = st.conversation.length := by
  unfold finalize_tool_call
  split
  · rfl
  · dsimp only
    split
    · rfl
    · rw [h]
      simp [length_updateAt]

/-- C4 (witness): finalizing a tracked call updates in place (length 1
stays 1). -/
theorem C4_witness :
    (finalize_tool_call
        (HandlerState.mk [MyChatMessage.mk "assistant" "x" []] [] []
          [("c", PartialCall.mk "f" "y")] [("c", 0)]) "c").conversation.length
      = (HandlerState.mk [MyChatMessage.mk "assistant" "x" []] [] []
          [("c", PartialCall.mk "f" "y")] [("c", 0)]).conversation.length :=
  C4_amended
    (HandlerState.mk [MyChatMessage.mk "assistant" "x" []] [] []
      [("c", PartialCall.mk "f" "y")] [("c", 0)]) "c" 0 (by decide)

/-- C5 (counterexample to the claim as stated): the timeline holds a *user*
message with metadata id `m1`; on a delta for `m1` the code opens a new
assistant bubble while the claimed rule (a) would append to the user
message — branch (a) in the code requires role `assistant`. -/
theorem C5_counterexample :
    apply_text_delta [MyChatMessage.mk "user" "u" [("id", "m1")]] "m1" "x"
      ≠ textDeltaClaimed [MyChatMessage.mk "user" "u" [("id", "m1")]] "m1" "x" := by
  decide

/-- C5 (amended): every assistant-text delta is resolved by the three-way
rule with branch (a) restricted to *assistant* messages carrying the id:
(a) append to the most recent assistant message with that id; (b) else
append to a tail assistant message whose id does not start with `tool-`;
(c) else open a new assistant message.  Scenario C: deltas `"Hel"` then
`"lo world"` under one id produce content `"Hello world"`. -/
theorem C5_amended :
    (∀ (conv : List MyChatMessage) (mid chunk : String),
      apply_text_delta conv mid chunk = textDeltaAmendedRule conv mid chunk) ∧
    apply_text_delta
        (apply_text_delta [MyChatMessage.mk "user" "hi" []] "m1" "Hel") "m1" "lo world"
      = [MyChatMessage.mk "user" "hi" [], MyChatMessage.mk "assistant" "Hello world" []] :=
  ⟨apply_text_delta_eq_amended, by decide⟩

/-- C6: if posting the user message fails, or opening the event stream
fails, the generator yields exactly one snapshot — the post-seed one,
holding the converted history followed by the user message — and then
propagates the error; there is no retry (the model performs a single
attempt) and no further timeline mutation. -/
theorem C6_transport (st : HandlerState) (u : String) (history : List MsgRecord)
    (postOk : Bool) (streamRes : Except Unit (List AgentEvent))
    (h : postOk = false ∨ streamRes = Except.error ()) :
    (stream_user_message st u history postOk streamRes).yields
      = [history.map convert_dict_to_mychatmessage ++ [MyChatMessage.mk "user" u []]] ∧
    (stream_user_message st u history postOk streamRes).outcome = Except.error () := by
  rcases h with h | h
  · subst h
    exact ⟨rfl, rfl⟩
  · subst h
    cases postOk
    · exact ⟨rfl, rfl⟩
    · exact ⟨rfl, rfl⟩

/-- C6 (witness): with empty history and a failing post, the single yield
is the lone user message and the outcome is the error. -/
theorem C6_witness :
    (stream_user_message emptyHandlerState "hi" [] false
        (Except.ok [])).yields
      = [List.map convert_dict_to_mychatmessage [] ++ [MyChatMessage.mk "user" "hi" []]] ∧
    (stream_user_message emptyHandlerState "hi" [] false
        (Except.ok [])).outcome = Except.error () :=
  C6_transport emptyHandlerState "hi" [] false (Except.ok []) (Or.inl rfl)

/-- C7: processing the "tool calls completed" run-step transition twice in
immediate succession is idempotent: the second invocation leaves the whole
state — in particular every message's content and every `done` status —
unchanged. -/
theorem C7_idempotent (st : HandlerState) (tcs : List ToolCallDelta) (m : Option String) :
    (handleEvent ((handleEvent st
          (AgentEvent.runStep "tool_calls" "completed" tcs m)).state)
        (AgentEvent.runStep "tool_calls" "completed" tcs m)).state
      = (handleEvent st (AgentEvent.runStep "tool_calls" "completed" tcs m)).state := by
  rw [handleEvent_completion_state _ _ (by simp [completionEvent]),
    handleEvent_completion_state _ _ (by simp [completionEvent])]
  simp [finalize_all, markDone]

/-- C8: seeding a new turn with a prior snapshot (in record form) as
`history` reproduces that snapshot identically — roles, contents, metadata,
order — in the first yielded timeline, followed only by the new user
message, whatever the transport outcome. -/
theorem C8_roundtrip (snapshot : List MyChatMessage) (u : String) (st : HandlerState)
    (postOk : Bool) (streamRes : Except Unit (List AgentEvent)) :
    (stream_user_message st u (snapshot.map toRecord) postOk streamRes).yields.head?
      = some (snapshot ++ [MyChatMessage.mk "user" u []]) := by
  have hrt : (snapshot.map toRecord).map convert_dict_to_mychatmessage = snapshot := by
    rw [List.map_map]
    have hcomp : convert_dict_to_mychatmessage ∘ toRecord = id := funext fun m => rfl
    rw [hcomp, List.map_id]
  cases postOk with
  | false => simp [stream_user_message, hrt]
  | true =>
    cases streamRes with
    | error e => simp [stream_user_message, hrt]
    | ok evs => simp [stream_user_message, hrt]

/-- C9 (counterexample to the claim as stated): a function-call delta with
no index is *not* a no-op: its chunks are buffered under the missing-index
sentinel slot, so the accumulator state changes. -/
theorem C9_counterexample :
    upsert_tool_call emptyHandlerState (ToolCallDelta.mk "function" none "" none "f" "a")
      ≠ emptyHandlerState := by
  decide

/-- C9 (amended): a function-call delta missing its positional index is not
skipped: the missing index is handled as a sentinel slot.  When that slot
has no bound call id and the delta carries none, the timeline, the
in-progress set, the index-to-id map and the id-keyed buffers are untouched
but the delta's chunks are appended to the sentinel slot's index-keyed
buffer; no error is raised and the stream continues. -/
theorem C9_amended (st : HandlerState) (n a : String)
    (hcif : alGet st.call_id_for_index none = none) :
    (upsert_tool_call st (ToolCallDelta.mk "function" none "" none n a)).conversation
        = st.conversation ∧
    (upsert_tool_call st (ToolCallDelta.mk "function" none "" none n a)).in_progress_tools
        = st.in_progress_tools ∧
    (upsert_tool_call st (ToolCallDelta.mk "function" none "" none n a)).call_id_for_index
        = st.call_id_for_index ∧
    (upsert_tool_call st (ToolCallDelta.mk "function" none "" none n a)).pcalls_by_id
        = st.pcalls_by_id ∧
    alGet (upsert_tool_call st
        (ToolCallDelta.mk "function" none "" none n a)).pcalls_by_index none
      = some (accumulate_args ((alGet st.pcalls_by_index none).getD emptyPC) n a) := by
  have h1 : upsert_tool_call st (ToolCallDelta.mk "function" none "" none n a)
      = bufferAtIndex st none n a := by
    have h2 : upsert_tool_call st (ToolCallDelta.mk "function" none "" none n a)
        = upsert_function st none none n a := by
      simp [upsert_tool_call]
    rw [h2]
    exact upsert_function_unresolved st none none n a rfl hcif
  rw [h1]
  exact ⟨rfl, rfl, rfl, rfl, alGet_alSet_self _ _ _⟩

/-- C9 (witness): on the fresh state, the missing-index delta with chunks
`("f", "a")` leaves the timeline empty and buffers the chunks under the
sentinel slot. -/
theorem C9_witness :
    (upsert_tool_call emptyHandlerState
        (ToolCallDelta.mk "function" none "" none "f" "a")).conversation
        = emptyHandlerState.conversation ∧
    (upsert_tool_call emptyHandlerState
        (ToolCallDelta.mk "function" none "" none "f" "a")).in_progress_tools
        = emptyHandlerState.in_progress_tools ∧
    (upsert_tool_call emptyHandlerState
        (ToolCallDelta.mk "function" none "" none "f" "a")).call_id_for_index
        = emptyHandlerState.call_id_for_index ∧
    (upsert_tool_call emptyHandlerState
        (ToolCallDelta.mk "function" none "" none "f" "a")).pcalls_by_id
        = emptyHandlerState.pcalls_by_id ∧
    alGet (upsert_tool_call emptyHandlerState
        (ToolCallDelta.mk "function" none "" none "f" "a")).pcalls_by_index none
      = some (accumulate_args ((alGet emptyHandlerState.pcalls_by_index none).getD emptyPC)
          "f" "a") :=
  C9_amended emptyHandlerState "f" "a" rfl

/-- C10: for every request URL, if the string contains an occurrence of the
pattern `q="([^"]+)"` (a non-empty quote-free capture closed by a quote)
then `extract_bing_query` returns the capture of such an occurrence, and if
the string contains no such occurrence it is returned unchanged — so a
bing-grounding message's content may be the raw URL. -/
theorem C10_extract (s : String) :
    ((∃ a q b, bingDecomp s a q b) →
      ∃ a q b, bingDecomp s a q b ∧ extract_bing_query s = String.mk q) ∧
    ((∀ a q b, ¬ bingDecomp s a q b) → extract_bing_query s = s) := by
  constructor
  · rintro ⟨a, q, b, hd⟩
    unfold bingDecomp at hd
    obtain ⟨he, hq, hn⟩ := hd
    cases hsq : searchQ s.data with
    | none => exact absurd he (searchQ_eq_none hsq a q b hq hn)
    | some run =>
      obtain ⟨a', b', hl, hq', hn'⟩ := searchQ_eq_some hsq
      refine ⟨a', run, b', ⟨hl, hq', hn'⟩, ?_⟩
      simp [extract_bing_query, hsq]
  · intro h
    cases hsq : searchQ s.data with
    | none => simp [extract_bing_query, hsq]
    | some run =>
      obtain ⟨a', b', hl, hq', hn'⟩ := searchQ_eq_some hsq
      exact absurd ⟨hl, hq', hn'⟩ (h a' run b')

/-- C10 (witness): a URL with the pattern yields the capture
(`"latest news"`), and a URL without it comes back unchanged. -/
theorem C10_witness :
    (∃ a q b, bingDecomp "bing?q=\"latest news\"&x" a q b ∧
        extract_bing_query "bing?q=\"latest news\"&x" = String.mk q) ∧
    extract_bing_query "bing?q=news" = "bing?q=news" := by
  constructor
  · refine (C10_extract "bing?q=\"latest news\"&x").1
      ⟨"bing?".data, "latest news".data, "&x".data, ?_⟩
    unfold bingDecomp
    refine ⟨by decide, by decide, by decide⟩
  · refine (C10_extract "bing?q=news").2 ?_
    intro a q b hd
    unfold bingDecomp at hd
    exact searchQ_eq_none (by decide) a q b hd.2.1 hd.2.2 hd.1
